import Mathlib

/-!
Verification development for the chihaya BitTorrent tracker (majestrate fork).

Go strings are byte strings; we model them as `List Char` (`GoStr`), one
`Char` per byte.  Machine integers (`uint64`, `uint16`) are modelled as `Nat`
with explicit `% 2^w` at the points where Go truncates.  Fallible Go functions
returning `(value, error)` are modelled with `Except`/`Option`.
-/

/-- A Go string: a sequence of bytes, one `Char` per byte. -/
abbrev GoStr := List Char

/-- Convert a Lean string literal to its `GoStr` model. -/
def strToChars (s : String) : GoStr := s.data

namespace Chihaya

/-! ## Error model (src/tracker/models/models.go)

Go errors relevant to the tracker: the three public error types declared in
models.go (`ClientError`, `NotFoundError`, `ProtocolError`, each a named
string type) and a fourth case for every other `error` value (e.g. those made
with `errors.New`).  Each carries its message (`Error()` string). -/
inductive GoErr where
  | clientError (msg : GoStr)
  | notFoundError (msg : GoStr)
  | protocolError (msg : GoStr)
  | generic (msg : GoStr)
deriving DecidableEq

/-- The `Error()` string of the modelled error value. -/
def GoErr.message : GoErr → GoStr
  | .clientError m => m
  | .notFoundError m => m
  | .protocolError m => m
  | .generic m => m

/-- models.go `IsPublicError`: three type assertions
`err.(ClientError)`, `err.(NotFoundError)`, `err.(ProtocolError)` or-ed. -/
def IsPublicError (e : GoErr) : Bool :=
  match e with
  | .clientError _ => true
  | .notFoundError _ => true
  | .protocolError _ => true
  | .generic _ => false

/-- models.go `ErrMalformedRequest`. -/
def ErrMalformedRequest : GoErr := .clientError (strToChars "malformed request")

/-- models.go `ErrBadRequest`. -/
def ErrBadRequest : GoErr := .clientError (strToChars "bad request")

/-- models.go `ErrUserDNE`. -/
def ErrUserDNE : GoErr := .notFoundError (strToChars "user does not exist")

/-- models.go `ErrTorrentDNE`. -/
def ErrTorrentDNE : GoErr := .notFoundError (strToChars "torrent does not exist")

/-- models.go `ErrClientUnapproved`. -/
def ErrClientUnapproved : GoErr := .clientError (strToChars "client is not approved")

/-! ## Peer / Torrent / Announce data model (src/tracker/models/models.go) -/

/-- A 32-byte i2p destination hash (`I2PDestHash`, external i2p-tools sam3
library): modelled as the list of its 32 bytes. -/
abbrev I2PDestHash := List Nat

/-- models.go `Endpoint`: an i2p destination hash plus port. -/
structure Endpoint where
  Dest : I2PDestHash
  Port : Nat
deriving DecidableEq

/-- models.go `Peer` (the `Endpoint` is embedded in Go; flattened here). -/
structure Peer where
  ID : GoStr
  UserID : Nat
  TorrentID : Nat
  Uploaded : Nat
  Downloaded : Nat
  Left : Nat
  LastAnnounce : Int
  Dest : I2PDestHash
  Port : Nat
deriving DecidableEq

/-- Modelled from the spec: the tracker-core `PeerMap` type (tracker storage
is not part of the sources at hand) is a keyed set of peers — "each swarm
holding two peer collections", "partitioned into two keyed sets".  We model
it as an association list from peer key to peer; its `Len()` is its size. -/
abbrev PeerMap := List (GoStr × Peer)

/-- Size of the keyed peer set (`PeerMap.Len()`). -/
def PeerMap.Len (m : PeerMap) : Nat := List.length m

/-- models.go `Torrent` (float64 multiplier fields and the optional
`Info` record are omitted: no claim mentions them). -/
structure Torrent where
  ID : Nat
  Infohash : GoStr
  Seeders : PeerMap
  Leechers : PeerMap
  Snatches : Nat
  LastAction : Int
deriving DecidableEq

/-- models.go `Announce` (the `Config` pointer is omitted; the only
config field the modelled code reads is passed explicitly). -/
structure Announce where
  Compact : Bool
  Downloaded : Nat
  Event : GoStr
  Infohash : GoStr
  Dest : Endpoint
  Port : Nat
  Left : Nat
  NumWant : Int
  Passkey : GoStr
  PeerID : GoStr
  Uploaded : Nat
  -- The models variant used by src/http/tracker.go also carries the
  -- resolved private/public transport addresses:
  PrivAddr : GoStr
  PubAddr : GoStr
deriving DecidableEq

/-- models.go `Announce.ClientID`: the client-software identifier carved out
of the peer id. -/
def Announce.ClientID (a : Announce) : GoStr :=
  if 6 ≤ a.PeerID.length then
    if a.PeerID.getD 0 ' ' = '-' then
      if 7 ≤ a.PeerID.length then (a.PeerID.drop 1).take 6 else []
    else
      a.PeerID.take 6
  else []

/-- models.go `Scrape`. -/
structure Scrape where
  Passkey : GoStr
  Infohashes : List GoStr
deriving DecidableEq

/-- models.go `ScrapeResponse`. -/
structure ScrapeResponse where
  Files : List Torrent
deriving DecidableEq

instance {ε α : Type} [DecidableEq ε] [DecidableEq α] :
    DecidableEq (Except ε α) := fun x y =>
  match x, y with
  | .ok a, .ok b =>
    if h : a = b then isTrue (by rw [h])
    else isFalse (by intro hc; cases hc; exact h rfl)
  | .error a, .error b =>
    if h : a = b then isTrue (by rw [h])
    else isFalse (by intro hc; cases hc; exact h rfl)
  | .ok _, .error _ => isFalse (by intro hc; cases hc)
  | .error _, .ok _ => isFalse (by intro hc; cases hc)

/-! ## Admin API error mapping (src/api/routes.go) -/

/-- api/routes.go `handleError`: maps the error of an admin handler to the
HTTP status code, propagating only non-client errors.  `none` models a nil
error.  (The `stats.RecordEvent` side effect carries no data and is not
modelled.) -/
def handleError (err : Option GoErr) : Nat × Option GoErr :=
  match err with
  | none => (200, none)
  | some e =>
    match e with
    | .notFoundError _ => (404, none)
    | .clientError _ => (400, none)
    | _ => (500, some e)

/-! ## HTTP tracker edge (src/http/routes.go, src/http/http.go, src/http/writer.go) -/

/-- Bencode encoding of a byte string: `<decimal length>:<bytes>`. -/
def bencodeStr (s : GoStr) : GoStr := Nat.toDigits 10 s.length ++ [':'] ++ s

/-- http/writer.go `WriteError`: the body written for a failure — a bencode
dict with the single key `failure reason` holding the error's message. -/
def writeErrorBody (e : GoErr) : GoStr :=
  ['d'] ++ bencodeStr (strToChars "failure reason") ++ bencodeStr e.message ++ ['e']

/-- http/routes.go `handleTorrentError`: given the error from announce/scrape
handling, returns the `(status, error)` pair handed back to `makeHandler`
together with the body written to the response writer so far (`WriteError`
writes the failure dict for public errors; otherwise nothing is written). -/
def handleTorrentError (err : Option GoErr) : (Nat × Option GoErr) × GoStr :=
  match err with
  | none => ((200, none), [])
  | some e =>
    if IsPublicError e then ((200, none), writeErrorBody e)
    else ((500, some e), [])

/-- Go `http.StatusText` for the one non-OK code this edge produces. -/
def statusText (code : Nat) : GoStr :=
  if code = 500 then strToChars "Internal Server Error" else []

/-- http/http.go `makeHandler`, error-reporting part: from the handler's
returned `(status, error)` and the body it already wrote, the final
`(status, body)` the client receives.  `http.Error` writes the message plus a
newline with the given status; when `http.Error` is not called the response
writer defaults the status to 200. -/
def makeHandlerFinish (res : (Nat × Option GoErr) × GoStr) : Nat × GoStr :=
  let code := res.1.1
  let body := res.2
  let msg : GoStr :=
    match res.1.2 with
    | some e => e.message
    | none => if code ≠ 200 then statusText code else []
  if msg ≠ [] then (code, body ++ msg ++ ['\n']) else (200, body)

/-- The composed error edge of `serveAnnounce`/`serveScrape`: what the client
receives when announce or scrape handling returned `err`. -/
def trackerEdgeResponse (err : Option GoErr) : Nat × GoStr :=
  makeHandlerFinish (handleTorrentError err)

/-! ## Scrape handling (tracker `HandleScrape`, with the torrent registry
modelled from the spec) -/

/-- models.go `User` (float64 multipliers omitted: no claim mentions them). -/
structure User where
  ID : Nat
  Passkey : GoStr
  Username : GoStr
  Cred : GoStr
deriving DecidableEq

/-- Modelled from the spec: `Tracker.FindTorrent` — the peer store's
"`find(infohash) → swarm | NOT_FOUND`"; the tracker storage code itself is
not among the sources at hand.  Unknown infohashes yield `ErrTorrentDNE`
("torrent does not exist"). -/
def FindTorrent (torrents : List (GoStr × Torrent)) (infohash : GoStr) :
    Except GoErr Torrent :=
  match torrents.find? (fun kv => kv.1 == infohash) with
  | some kv => .ok kv.2
  | none => .error ErrTorrentDNE

/-- Modelled from the spec: `Tracker.FindUser` — "look up user by passkey; if
absent, fail `USER_DNE`" (tracker storage code not among the sources at
hand). -/
def FindUser (users : List User) (passkey : GoStr) : Except GoErr User :=
  match users.find? (fun u => u.Passkey == passkey) with
  | some u => .ok u
  | none => .error ErrUserDNE

/-- The infohash loop of `HandleScrape`: resolve each infohash in order,
aborting with the lookup error on the first unknown one. -/
def scrapeTorrents (torrents : List (GoStr × Torrent)) :
    List GoStr → Except GoErr (List Torrent)
  | [] => .ok []
  | ih :: rest =>
    match FindTorrent torrents ih with
    | .error e => .error e
    | .ok t => (scrapeTorrents torrents rest).map (fun ts => t :: ts)

/-- tracker `HandleScrape`: private-mode passkey check, then resolve every
requested infohash; on success write a `ScrapeResponse` listing the resolved
torrents. -/
def HandleScrape (privateEnabled : Bool) (users : List User)
    (torrents : List (GoStr × Torrent)) (scrape : Scrape) :
    Except GoErr ScrapeResponse :=
  match (if privateEnabled then (FindUser users scrape.Passkey).map (fun _ => ())
         else .ok ()) with
  | .error e => .error e
  | .ok _ =>
    match scrapeTorrents torrents scrape.Infohashes with
    | .error e => .error e
    | .ok ts => .ok ⟨ts⟩

/-! ## Scrape serialization (src/http/writer.go) -/

/-- The value of one entry of the scrape `files` dict. -/
structure TorrentDictEntry where
  complete : Nat
  incomplete : Nat
  downloaded : Nat
deriving DecidableEq

/-- http/writer.go `torrentDict`. -/
def torrentDict (t : Torrent) : TorrentDictEntry :=
  { complete := t.Seeders.Len, incomplete := t.Leechers.Len,
    downloaded := t.Snatches }

/-- Insertion into a Go `map[string]…`, modelled on an association list:
overwrite the entry when the key is present, append otherwise. -/
def goMapInsert (m : List (GoStr × TorrentDictEntry)) (k : GoStr)
    (v : TorrentDictEntry) : List (GoStr × TorrentDictEntry) :=
  if m.any (fun kv => kv.1 == k) then
    m.map (fun kv => if kv.1 == k then (k, v) else kv)
  else m ++ [(k, v)]

/-- http/writer.go `filesDict`: one dict entry per torrent, keyed by its
infohash. -/
def filesDict (torrents : List Torrent) : List (GoStr × TorrentDictEntry) :=
  torrents.foldl (fun d t => goMapInsert d t.Infohash (torrentDict t)) []

/-- Lookup in the modelled Go map. -/
def goMapGet (m : List (GoStr × TorrentDictEntry)) (k : GoStr) :
    Option TorrentDictEntry :=
  (m.find? (fun kv => kv.1 == k)).map (fun kv => kv.2)

/-! ## Announce request parsing (src/http/tracker.go) -/

/-- http/query `Query`: a parsed query string — parameter map plus the
multi-valued `info_hash` list when one was given. -/
structure Query where
  params : List (GoStr × GoStr)
  infohashes : Option (List GoStr)

/-- Parameter lookup, `q.Params[key]`. -/
def Query.lookup (q : Query) (k : GoStr) : Option GoStr :=
  (q.params.find? (fun kv => kv.1 == k)).map (fun kv => kv.2)

/-- Decimal digit-string value: `none` unless nonempty and all digits. -/
def parseDecimal (s : GoStr) : Option Nat :=
  if s = [] then none
  else
    s.foldl
      (fun acc c =>
        match acc with
        | none => none
        | some v =>
          if '0' ≤ c ∧ c ≤ '9' then some (v * 10 + (c.toNat - '0'.toNat))
          else none)
      (some 0)

/-- Modelled from the spec: `q.Uint64(key)` of the http/query package (not
among the sources at hand) — "missing or unparseable required field" fails;
Go `strconv.ParseUint(s, 10, 64)` succeeds only on a nonempty all-digit
string whose value fits in 64 bits. -/
def Query.uint64 (q : Query) (k : GoStr) : Option Nat :=
  match q.lookup k with
  | none => none
  | some s =>
    match parseDecimal s with
    | some v => if v < 2 ^ 64 then some v else none
    | none => none

/-- Go `strconv.Atoi`: optional sign, digits, 64-bit signed range. -/
def parseAtoi (s : GoStr) : Option Int :=
  match s with
  | '-' :: rest =>
    (parseDecimal rest).bind fun v =>
      if v ≤ 2 ^ 63 then some (-(v : Int)) else none
  | '+' :: rest =>
    (parseDecimal rest).bind fun v =>
      if v < 2 ^ 63 then some (v : Int) else none
  | _ =>
    (parseDecimal s).bind fun v =>
      if v < 2 ^ 63 then some (v : Int) else none

/-- src/http/tracker.go `requestedPeerCount`: the `numwant` parameter when
present and parseable, the fallback otherwise. -/
def requestedPeerCount (q : Query) (fallback : Int) : Int :=
  match q.lookup (strToChars "numwant") with
  | some s =>
    match parseAtoi s with
    | some v => v
    | none => fallback
  | none => fallback

/-- src/http/tracker.go `newAnnounce`, from the parsed query on: produce the
`Announce` or fail with `ErrMalformedRequest`.  `addrResult` is the outcome
of `getRealAddress` (reverse-DNS of the remote address — network I/O, passed
in as `(private address, public address)` or `none` on failure); `passkey`
is the path parameter. -/
def newAnnounce (numWantFallback : Int) (q : Query) (passkey : GoStr)
    (addrResult : Option (GoStr × GoStr)) : Except GoErr Announce :=
  let event := (q.lookup (strToChars "event")).getD []
  let numWant := requestedPeerCount q numWantFallback
  match q.lookup (strToChars "info_hash") with
  | none => .error ErrMalformedRequest
  | some infohash =>
  match q.lookup (strToChars "peer_id") with
  | none => .error ErrMalformedRequest
  | some peerID =>
  match q.uint64 (strToChars "port") with
  | none => .error ErrMalformedRequest
  | some port =>
  match q.uint64 (strToChars "left") with
  | none => .error ErrMalformedRequest
  | some left =>
  match addrResult with
  | none => .error ErrMalformedRequest
  | some addrs =>
  match q.uint64 (strToChars "downloaded") with
  | none => .error ErrMalformedRequest
  | some downloaded =>
  match q.uint64 (strToChars "uploaded") with
  | none => .error ErrMalformedRequest
  | some uploaded =>
  .ok { Compact := true, Downloaded := downloaded, Event := event,
        Infohash := infohash, Dest := ⟨List.replicate 32 0, 0⟩,
        Port := port % 2 ^ 16, Left := left, NumWant := numWant,
        Passkey := passkey, PeerID := peerID, Uploaded := uploaded,
        PrivAddr := addrs.1, PubAddr := addrs.2 }

/-! ## Base32 (Go encoding/base32) and passkey generation -/

/-- The Go `base32.StdEncoding` alphabet. -/
def stdAlphabet : GoStr := strToChars "ABCDEFGHIJKLMNOPQRSTUVWXYZ234567"

/-- The i2p base32 alphabet (`i2pB32enc` of the sam3 library). -/
def i2pAlphabet : GoStr := strToChars "abcdefghijklmnopqrstuvwxyz234567"

/-- Go base32 `Encode`, bit-unpacking step: the 5-bit values of the groups of
up to five input bytes (Go's `switch len(src)` with fallthrough; Go byte
operations on `Nat`: `&` is `&&&`, `|` is `|||`, shifts are `>>>`/`<<<`,
written in Go's accumulation order).  A full 5-byte group yields 8 values;
the final short group yields the number of non-pad characters Go emits
(Go then appends `=` padding, handled by the callers below). -/
def encGroups : List Nat → List Nat
  | b0 :: b1 :: b2 :: b3 :: b4 :: rest =>
    [b0 >>> 3,
     ((b1 >>> 6) &&& 31) ||| ((b0 <<< 2) &&& 31),
     (b1 >>> 1) &&& 31,
     ((b2 >>> 4) &&& 31) ||| ((b1 <<< 4) &&& 31),
     (b3 >>> 7) ||| ((b2 <<< 1) &&& 31),
     (b3 >>> 2) &&& 31,
     (b4 >>> 5) ||| ((b3 <<< 3) &&& 31),
     b4 &&& 31] ++ encGroups rest
  | [b0, b1, b2, b3] =>
    [b0 >>> 3,
     ((b1 >>> 6) &&& 31) ||| ((b0 <<< 2) &&& 31),
     (b1 >>> 1) &&& 31,
     ((b2 >>> 4) &&& 31) ||| ((b1 <<< 4) &&& 31),
     (b3 >>> 7) ||| ((b2 <<< 1) &&& 31),
     (b3 >>> 2) &&& 31,
     (b3 <<< 3) &&& 31]
  | [b0, b1, b2] =>
    [b0 >>> 3,
     ((b1 >>> 6) &&& 31) ||| ((b0 <<< 2) &&& 31),
     (b1 >>> 1) &&& 31,
     ((b2 >>> 4) &&& 31) ||| ((b1 <<< 4) &&& 31),
     (b2 <<< 1) &&& 31]
  | [b0, b1] =>
    [b0 >>> 3,
     ((b1 >>> 6) &&& 31) ||| ((b0 <<< 2) &&& 31),
     (b1 >>> 1) &&& 31,
     (b1 <<< 4) &&& 31]
  | [b0] =>
    [b0 >>> 3,
     (b0 <<< 2) &&& 31]
  | [] => []

/-- Go base32 `Encode`, character step: `enc.encode[b[i]&31]` — each 5-bit
value indexes the alphabet (with Go's redundant `&31` mask).  This is the
encoded string without the `=` padding tail; the two callers in this
development never see padding (a 30-byte passkey is 6 exact groups, and
`I2PDestHash.String()` slices the 4 pad characters off). -/
def base32Chars (alpha : GoStr) (src : List Nat) : GoStr :=
  (encGroups src).map (fun i => alpha.getD (i &&& 31) '?')

/-- Go base32 `decode`, bit-packing step: reassemble bytes from 5-bit values
(Go's `switch dlen` with fallthrough; a final short block of 7, 5, 4 or 2
values arises from `=` padding and yields 4, 3, 2 or 1 bytes; Go's byte
arithmetic truncates each shifted term to 8 bits, hence the `&&& 255`). -/
def decGroups : List Nat → List Nat
  | i0 :: i1 :: i2 :: i3 :: i4 :: i5 :: i6 :: i7 :: rest =>
    [((i0 <<< 3) &&& 255) ||| (i1 >>> 2),
     ((i1 <<< 6) &&& 255) ||| ((i2 <<< 1) &&& 255) ||| (i3 >>> 4),
     ((i3 <<< 4) &&& 255) ||| (i4 >>> 1),
     ((i4 <<< 7) &&& 255) ||| ((i5 <<< 2) &&& 255) ||| (i6 >>> 3),
     ((i6 <<< 5) &&& 255) ||| i7] ++ decGroups rest
  | [i0, i1, i2, i3, i4, i5, i6] =>
    [((i0 <<< 3) &&& 255) ||| (i1 >>> 2),
     ((i1 <<< 6) &&& 255) ||| ((i2 <<< 1) &&& 255) ||| (i3 >>> 4),
     ((i3 <<< 4) &&& 255) ||| (i4 >>> 1),
     ((i4 <<< 7) &&& 255) ||| ((i5 <<< 2) &&& 255) ||| (i6 >>> 3)]
  | [i0, i1, i2, i3, i4] =>
    [((i0 <<< 3) &&& 255) ||| (i1 >>> 2),
     ((i1 <<< 6) &&& 255) ||| ((i2 <<< 1) &&& 255) ||| (i3 >>> 4),
     ((i3 <<< 4) &&& 255) ||| (i4 >>> 1)]
  | [i0, i1, i2, i3] =>
    [((i0 <<< 3) &&& 255) ||| (i1 >>> 2),
     ((i1 <<< 6) &&& 255) ||| ((i2 <<< 1) &&& 255) ||| (i3 >>> 4)]
  | [i0, i1] =>
    [((i0 <<< 3) &&& 255) ||| (i1 >>> 2)]
  | _ => []

/-- Go `strings.ToLower` on one ASCII byte. -/
def toLowerChar (c : Char) : Char :=
  if 'A' ≤ c ∧ c ≤ 'Z' then Char.ofNat (c.toNat + 32) else c

/-- Go `strings.ToLower` on an ASCII byte string. -/
def goToLower (s : GoStr) : GoStr := s.map toLowerChar

/-- part_000 `genPassKey`: 30 random bytes, base32 (standard alphabet),
lowercased.  `written` models what `io.ReadFull(rand.Reader, buff[:])`
managed to write into the zero-initialized 30-byte buffer before it
returned (all 30 bytes when it succeeds, fewer when the random source
fails).  genPassKey discards `io.ReadFull`'s count and error (`_, _ =`) and
encodes the buffer unconditionally. -/
def genPassKey (written : List Nat) : GoStr :=
  goToLower
    (base32Chars stdAlphabet (written ++ List.replicate (30 - written.length) 0))

/-! ## i2p destination hashes and peer keys
(models.go `NewPeerKey`/`PeerID`/`Dest`; the `I2PDestHash` string codec lives
in the external i2p-tools sam3 library, modelled here per the spec's "32-byte
destination hash" whose human form is the base32 `.b32.i2p` name) -/

/-- sam3 `I2PDestHash.String()`: `i2pB32enc.Encode` of the 32 hash bytes,
sliced to its first 52 characters (dropping the 4 `=` pads), plus
`".b32.i2p"`. -/
def destHashString (h : I2PDestHash) : GoStr :=
  base32Chars i2pAlphabet h ++ strToChars ".b32.i2p"

/-- Position of a character in the alphabet (Go's `decodeMap`); `none` for a
character outside the alphabet (Go: `CorruptInputError`). -/
def charIndex (alpha : GoStr) (c : Char) : Option Nat :=
  List.findIdx? (fun a => a = c) alpha

/-- Map a base32 string to its 5-bit values; `none` as soon as a character
is outside the alphabet. -/
def charIndices (alpha : GoStr) : GoStr → Option (List Nat)
  | [] => some []
  | c :: rest =>
    match charIndex alpha c, charIndices alpha rest with
    | some i, some is => some (i :: is)
    | _, _ => none

/-- sam3 `DestHashFromString`: accepts exactly the 60-character strings with
suffix `".b32.i2p"`; Go appends `"===="` to the first 52 characters and
decodes (final quantum dlen 4).  On a rejected format Go leaves the zero
value `var dhash I2PDestHash` and returns an error that the caller
`PeerKey.Dest` discards, so the zero hash is what that caller observes.  (On
a decode error inside a valid-shaped string Go can leave a partially decoded
hash; no theorem below evaluates that path, and we return the zero hash for
it.) -/
def DestHashFromString (s : GoStr) : I2PDestHash :=
  if s.length = 60 ∧ (strToChars ".b32.i2p").isSuffixOf s then
    match charIndices i2pAlphabet (s.take 52) with
    | some is => decGroups is
    | none => List.replicate 32 0
  else List.replicate 32 0

/-- models.go `NewPeerKey`: `fmt.Sprintf("%s//%s", peerID, dhash)` — `%s` on
the hash invokes its `String()` form. -/
def NewPeerKey (peerID : GoStr) (dhash : I2PDestHash) : GoStr :=
  peerID ++ strToChars "//" ++ destHashString dhash

/-- Go `strings.Split(s, "//")`: cut at each non-overlapping occurrence of
`"//"`, leftmost first. -/
def splitDoubleSlash : GoStr → List GoStr
  | [] => [[]]
  | [c] => [[c]]
  | c1 :: c2 :: rest =>
    if c1 = '/' ∧ c2 = '/' then [] :: splitDoubleSlash rest
    else
      match splitDoubleSlash (c2 :: rest) with
      | h :: t => (c1 :: h) :: t
      | [] => [[c1]]

/-- Whether a string contains the substring `"//"`. -/
def hasDoubleSlash : GoStr → Bool
  | c1 :: c2 :: rest =>
    if c1 = '/' ∧ c2 = '/' then true else hasDoubleSlash (c2 :: rest)
  | _ => false

/-- models.go `PeerKey.PeerID()`: `strings.Split(string(pk), "//")[0]`. -/
def PeerKeyPeerID (pk : GoStr) : GoStr :=
  (splitDoubleSlash pk).getD 0 []

/-- models.go `PeerKey.Dest()`:
`dhash, _ = DestHashFromString(strings.Split(string(pk), "//")[1])` — the
parse error is discarded. -/
def PeerKeyDest (pk : GoStr) : I2PDestHash :=
  DestHashFromString ((splitDoubleSlash pk).getD 1 [])

/-! ## Compact peer serialization (http writer `compactPeers`) -/

/-- http writer `compactPeers`: the byte string sent as `peers` in the
compact announce response — the loop writes `peer.Dest[:]`, the raw bytes of
each peer's destination hash, into one buffer. -/
def compactPeers (peers : List Peer) : List Nat :=
  peers.foldl (fun buf p => buf ++ p.Dest) []

end Chihaya

/-! ## Claims -/

open Chihaya

/-- C6: for every announce, `Announce.ClientID` equals the first 6 bytes of
the peer id when it does not begin with `-`, and bytes 1..7 (Go slice
`PeerID[1:7]`) when it does begin with `-` — whenever those bytes exist. -/
theorem claim_C6_clientID (a : Announce) :
    (a.PeerID.getD 0 ' ' ≠ '-' → 6 ≤ a.PeerID.length →
      a.ClientID = a.PeerID.take 6) ∧
    (a.PeerID.getD 0 ' ' = '-' → 7 ≤ a.PeerID.length →
      a.ClientID = (a.PeerID.drop 1).take 6) := by
  constructor
  · intro hne hlen
    unfold Announce.ClientID
    rw [if_pos hlen, if_neg hne]
  · intro heq hlen
    unfold Announce.ClientID
    rw [if_pos (show 6 ≤ a.PeerID.length by omega), if_pos heq, if_pos hlen]

/-- Witness for C6 at a concrete announce with peer id `-AB1234xyz`. -/
theorem claim_C6_clientID_witness :
    let a : Announce :=
      { Compact := true, Downloaded := 0, Event := [], Infohash := [],
        Dest := ⟨List.replicate 32 0, 0⟩, Port := 0, Left := 0, NumWant := 0,
        Passkey := [], PeerID := strToChars "-AB1234xyz", Uploaded := 0,
        PrivAddr := [], PubAddr := [] }
    a.ClientID = strToChars "AB1234" :=
  (claim_C6_clientID _).2 (by decide) (by decide)

/-- C9: the admin API error mapping: nil ↦ 200, `NotFoundError` ↦ 404, any
other `ClientError` ↦ 400, and every remaining error (including
`ProtocolError` and generic errors) ↦ 500. -/
theorem claim_C9_api_handleError (m : GoStr) :
    handleError none = (200, none) ∧
    handleError (some (.notFoundError m)) = (404, none) ∧
    handleError (some (.clientError m)) = (400, none) ∧
    handleError (some (.protocolError m)) = (500, some (.protocolError m)) ∧
    handleError (some (.generic m)) = (500, some (.generic m)) := by
  refine ⟨rfl, rfl, rfl, rfl, rfl⟩

/-! ### Helper lemmas -/

/-- The lookup `FindTorrent` fails only with `ErrTorrentDNE`. -/
theorem FindTorrent_error_eq (torrents : List (GoStr × Torrent)) (ih : GoStr)
    (e : GoErr) (h : FindTorrent torrents ih = .error e) : e = ErrTorrentDNE := by
  unfold FindTorrent at h
  cases hf : List.find? (fun kv => kv.1 == ih) torrents with
  | some kv => rw [hf] at h; cases h
  | none => rw [hf] at h; exact (Except.error.inj h).symm

/-- The scrape loop succeeds, in request order, when every infohash resolves. -/
theorem scrapeTorrents_ok (torrents : List (GoStr × Torrent)) (f : GoStr → Torrent) :
    ∀ ihs : List GoStr, (∀ ih ∈ ihs, FindTorrent torrents ih = .ok (f ih)) →
      scrapeTorrents torrents ihs = .ok (ihs.map f) := by
  intro ihs
  induction ihs with
  | nil => intro _; rfl
  | cons a rest IH =>
    intro h
    unfold scrapeTorrents
    rw [h a (List.mem_cons_self a rest),
      IH (fun x hx => h x (List.mem_cons_of_mem _ hx))]
    rfl

/-- The scrape loop aborts with `ErrTorrentDNE` when some infohash is unknown. -/
theorem scrapeTorrents_unknown (torrents : List (GoStr × Torrent)) :
    ∀ ihs : List GoStr,
      (∃ ih ∈ ihs, List.find? (fun kv => kv.1 == ih) torrents = none) →
      scrapeTorrents torrents ihs = .error ErrTorrentDNE := by
  intro ihs
  induction ihs with
  | nil => rintro ⟨ih, hmem, _⟩; cases hmem
  | cons a rest IH =>
    rintro ⟨ih, hmem, hfind⟩
    unfold scrapeTorrents
    rcases List.mem_cons.mp hmem with rfl | hr
    · unfold FindTorrent
      rw [hfind]
    · cases hfa : FindTorrent torrents a with
      | error e => rw [FindTorrent_error_eq torrents a e hfa]
      | ok t => rw [IH ⟨ih, hr, hfind⟩]; rfl

/-- Go map insertion of an absent key appends the pair. -/
theorem goMapInsert_append (m : List (GoStr × TorrentDictEntry)) (k : GoStr)
    (v : TorrentDictEntry) (h : ∀ kv ∈ m, kv.1 ≠ k) :
    goMapInsert m k v = m ++ [(k, v)] := by
  have hn : ¬(m.any (fun kv => kv.1 == k) = true) := by
    simp only [List.any_eq_true, beq_iff_eq, not_exists]
    rintro kv ⟨hmem, heq⟩
    exact h kv hmem heq
  unfold goMapInsert
  rw [if_neg hn]

/-- The `filesDict` fold produces exactly one appended entry per torrent when
the infohashes are distinct. -/
theorem filesDict_fold (ts : List Torrent) :
    ∀ acc : List (GoStr × TorrentDictEntry),
      (∀ t ∈ ts, ∀ kv ∈ acc, kv.1 ≠ t.Infohash) →
      List.Pairwise (fun a b => a.Infohash ≠ b.Infohash) ts →
      ts.foldl (fun d t => goMapInsert d t.Infohash (torrentDict t)) acc =
        acc ++ ts.map (fun t => (t.Infohash, torrentDict t)) := by
  induction ts with
  | nil => intro acc _ _; simp
  | cons t rest IH =>
    intro acc hdisj hpw
    simp only [List.foldl_cons, List.map_cons]
    rw [goMapInsert_append _ _ _ (fun kv hkv => hdisj t (List.mem_cons_self t rest) kv hkv)]
    rw [IH (acc ++ [(t.Infohash, torrentDict t)]) ?_ (List.pairwise_cons.mp hpw).2]
    · simp
    · intro t' ht' kv hkv
      rcases List.mem_append.mp hkv with hacc | hone
      · exact hdisj t' (List.mem_cons_of_mem _ ht') kv hacc
      · have : kv = (t.Infohash, torrentDict t) := by simpa using hone
        rw [this]
        exact (List.pairwise_cons.mp hpw).1 t' ht'

/-- Looking up a torrent's infohash in the one-entry-per-torrent dict yields
its entry, when infohashes are distinct. -/
theorem goMapGet_of_map (t : Torrent) :
    ∀ ts : List Torrent, t ∈ ts →
      List.Pairwise (fun a b => a.Infohash ≠ b.Infohash) ts →
      goMapGet (ts.map (fun u => (u.Infohash, torrentDict u))) t.Infohash =
        some (torrentDict t) := by
  intro ts
  induction ts with
  | nil => intro hmem; cases hmem
  | cons a rest IH =>
    intro hmem hpw
    rcases List.mem_cons.mp hmem with rfl | hr
    · unfold goMapGet
      rw [List.map_cons, List.find?_cons_of_pos _ (by simp)]
      rfl
    · have hne : a.Infohash ≠ t.Infohash := (List.pairwise_cons.mp hpw).1 t hr
      unfold goMapGet at IH ⊢
      rw [List.map_cons, List.find?_cons_of_neg _ (by simpa using hne)]
      exact IH hr (List.pairwise_cons.mp hpw).2

/-! ### Claim theorems (continued) -/

/-- C4 (amended): a nil error yields 200 with nothing written; an error
satisfying `IsPublicError` yields HTTP 200 with a single bencoded
`failure reason` body; any other error yields HTTP status 500 — but the
error's own message is NOT suppressed: `makeHandler` writes it verbatim
(plus a newline) as the response body. -/
theorem claim_C4_error_edge (e : GoErr) :
    trackerEdgeResponse none = (200, []) ∧
    (IsPublicError e = true →
      trackerEdgeResponse (some e) = (200, writeErrorBody e)) ∧
    (IsPublicError e = false → e.message ≠ [] →
      trackerEdgeResponse (some e) = (500, e.message ++ ['\n'])) := by
  refine ⟨rfl, ?_, ?_⟩
  · intro hp
    simp [trackerEdgeResponse, handleTorrentError, makeHandlerFinish, hp]
  · intro hp hm
    simp [trackerEdgeResponse, handleTorrentError, makeHandlerFinish, hp, hm]

/-- Witness for C4 at a public error (`ErrTorrentDNE`) and a generic one. -/
theorem claim_C4_error_edge_witness :
    trackerEdgeResponse (some ErrTorrentDNE) =
      (200, writeErrorBody ErrTorrentDNE) ∧
    trackerEdgeResponse (some (GoErr.generic (strToChars "db down"))) =
      (500, strToChars "db down" ++ ['\n']) :=
  ⟨(claim_C4_error_edge ErrTorrentDNE).2.1 (by decide),
   (claim_C4_error_edge (GoErr.generic (strToChars "db down"))).2.2
     (by decide) (by decide)⟩

/-- C4 counterexample: for a non-public error, a descriptive message DOES
reach the client — the response body is exactly the internal error's text
(plus newline), contradicting "no descriptive message reaches the client". -/
theorem claim_C4_counterexample :
    trackerEdgeResponse (some (GoErr.generic (strToChars "database error"))) =
      (500, strToChars "database error\n") ∧
    strToChars "database error\n" ≠ ([] : GoStr) := by
  exact ⟨by decide, by decide⟩

/-- C1 (amended, private mode off): when every requested infohash resolves,
`HandleScrape` returns a `ScrapeResponse` with exactly one file entry per
requested infohash in request order; when any requested infohash has no
known swarm, `HandleScrape` fails with `ErrTorrentDNE` — the failure is
surfaced to the client, the unknown infohash is not silently omitted. -/
theorem claim_C1_amended (users : List User) (torrents : List (GoStr × Torrent))
    (sc : Scrape) (f : GoStr → Torrent) :
    ((∀ ih ∈ sc.Infohashes, FindTorrent torrents ih = .ok (f ih)) →
      HandleScrape false users torrents sc = .ok ⟨sc.Infohashes.map f⟩) ∧
    ((∃ ih ∈ sc.Infohashes, List.find? (fun kv => kv.1 == ih) torrents = none) →
      HandleScrape false users torrents sc = .error ErrTorrentDNE) := by
  constructor
  · intro h
    unfold HandleScrape
    rw [scrapeTorrents_ok torrents f sc.Infohashes h]
    rfl
  · intro h
    unfold HandleScrape
    rw [scrapeTorrents_unknown torrents sc.Infohashes h]
    rfl

/-- Witness for C1: a two-swarm store scraped for both infohashes (success
case), and the same store scraped for a missing infohash (failure case). -/
theorem claim_C1_amended_witness :
    HandleScrape false []
      [(strToChars "IH1",
        { ID := 1, Infohash := strToChars "IH1", Seeders := [], Leechers := [],
          Snatches := 0, LastAction := 0 })]
      { Passkey := [], Infohashes := [strToChars "IH1"] } =
      .ok ⟨[{ ID := 1, Infohash := strToChars "IH1", Seeders := [],
              Leechers := [], Snatches := 0, LastAction := 0 }]⟩ :=
  (claim_C1_amended [] _ _
    (fun _ => { ID := 1, Infohash := strToChars "IH1", Seeders := [],
                Leechers := [], Snatches := 0, LastAction := 0 })).1
    (by decide)

/-- C1 counterexample: a scrape for a known infohash `IH1` together with an
unknown one `IHX` does NOT return a response omitting the unknown entry — it
fails with the public error `ErrTorrentDNE` ("torrent does not exist"). -/
theorem claim_C1_counterexample :
    HandleScrape false []
      [(strToChars "IH1",
        { ID := 1, Infohash := strToChars "IH1", Seeders := [], Leechers := [],
          Snatches := 0, LastAction := 0 })]
      { Passkey := [], Infohashes := [strToChars "IH1", strToChars "IHX"] } =
      .error ErrTorrentDNE := by
  decide

/-- C8: with pairwise-distinct infohashes, the scrape `files` dict has
exactly one entry per torrent, keyed by its infohash, whose `complete` is the
seeder-set size, `incomplete` the leecher-set size, and `downloaded` the
snatch counter. -/
theorem claim_C8_filesDict (ts : List Torrent)
    (hd : List.Pairwise (fun a b => a.Infohash ≠ b.Infohash) ts) :
    filesDict ts = ts.map (fun t => (t.Infohash, torrentDict t)) ∧
    ∀ t ∈ ts,
      goMapGet (filesDict ts) t.Infohash = some (torrentDict t) ∧
      torrentDict t = { complete := t.Seeders.Len, incomplete := t.Leechers.Len,
                        downloaded := t.Snatches } := by
  have hfold := filesDict_fold ts [] (fun _ _ _ h => (List.not_mem_nil _ h).elim) hd
  constructor
  · simpa [filesDict] using hfold
  · intro t ht
    refine ⟨?_, rfl⟩
    have : filesDict ts = ts.map (fun t => (t.Infohash, torrentDict t)) := by
      simpa [filesDict] using hfold
    rw [this]
    exact goMapGet_of_map t ts ht hd

/-- Witness for C8 on a two-torrent store with distinct infohashes. -/
theorem claim_C8_filesDict_witness :
    filesDict
      [⟨1, strToChars "IH1",
        [(strToChars "k", ⟨strToChars "p", 0, 0, 0, 0, 0, 0, List.replicate 32 0, 0⟩)],
        [], 3, 0⟩,
       ⟨2, strToChars "IH2", [], [], 0, 0⟩] =
      [(strToChars "IH1", ⟨1, 0, 3⟩), (strToChars "IH2", ⟨0, 0, 0⟩)] := by
  rw [(claim_C8_filesDict
      [⟨1, strToChars "IH1",
        [(strToChars "k", ⟨strToChars "p", 0, 0, 0, 0, 0, 0, List.replicate 32 0, 0⟩)],
        [], 3, 0⟩,
       ⟨2, strToChars "IH2", [], [], 0, 0⟩] (by decide)).1]
  decide

/-- C7: if any of `info_hash`, `peer_id`, `port`, `left`, `downloaded`,
`uploaded` is missing or fails to parse as a number, `newAnnounce` fails
with `ErrMalformedRequest` and produces no `Announce`. -/
theorem claim_C7_newAnnounce_malformed (fb : Int) (q : Query) (pk : GoStr)
    (addr : Option (GoStr × GoStr))
    (h : q.lookup (strToChars "info_hash") = none ∨
         q.lookup (strToChars "peer_id") = none ∨
         q.uint64 (strToChars "port") = none ∨
         q.uint64 (strToChars "left") = none ∨
         q.uint64 (strToChars "downloaded") = none ∨
         q.uint64 (strToChars "uploaded") = none) :
    newAnnounce fb q pk addr = .error ErrMalformedRequest := by
  unfold newAnnounce
  cases h1 : q.lookup (strToChars "info_hash") <;>
    cases h2 : q.lookup (strToChars "peer_id") <;>
      cases h3 : q.uint64 (strToChars "port") <;>
        cases h4 : q.uint64 (strToChars "left") <;>
          cases h5 : addr <;>
            cases h6 : q.uint64 (strToChars "downloaded") <;>
              cases h7 : q.uint64 (strToChars "uploaded") <;>
                simp_all

/-- Witness for C7: a query whose `port` value is not a number. -/
theorem claim_C7_newAnnounce_malformed_witness :
    newAnnounce 50
      { params := [(strToChars "info_hash", strToChars "IH1"),
                   (strToChars "peer_id", strToChars "-AB1234xyz"),
                   (strToChars "port", strToChars "abc"),
                   (strToChars "left", strToChars "0"),
                   (strToChars "downloaded", strToChars "0"),
                   (strToChars "uploaded", strToChars "0")],
        infohashes := none }
      [] (some ([], [])) = .error ErrMalformedRequest :=
  claim_C7_newAnnounce_malformed 50 _ [] _
    (Or.inr (Or.inr (Or.inl (by decide))))

/-- The compact-peer buffer is the concatenation of the destination hashes. -/
theorem compactPeers_fold (peers : List Peer) :
    ∀ acc : List Nat,
      peers.foldl (fun buf p => buf ++ p.Dest) acc =
        acc ++ (peers.map (fun p => p.Dest)).flatten := by
  induction peers with
  | nil => intro acc; simp
  | cons p rest IH =>
    intro acc
    simp only [List.foldl_cons, List.map_cons, List.flatten_cons]
    rw [IH (acc ++ p.Dest)]
    simp [List.append_assoc]

/-- The concatenated destination hashes of peers with 32-byte hashes have
32 bytes per peer. -/
theorem flatten_dest_length (peers : List Peer)
    (h : ∀ p ∈ peers, p.Dest.length = 32) :
    ((peers.map (fun p => p.Dest)).flatten).length = 32 * peers.length := by
  induction peers with
  | nil => rfl
  | cons p rest IH =>
    simp only [List.map_cons, List.flatten_cons, List.length_append,
      List.length_cons]
    rw [h p (List.mem_cons_self p rest),
      IH (fun q hq => h q (List.mem_cons_of_mem _ hq))]
    ring

/-- C2 (amended): with the compact format, each peer contributes exactly its
32 destination-hash bytes to the peer list — the 2-byte port is NOT
appended; the serialized list is the concatenation of the destination
hashes, 32 bytes per peer. -/
theorem claim_C2_amended (peers : List Peer)
    (h : ∀ p ∈ peers, p.Dest.length = 32) :
    compactPeers peers = (peers.map (fun p => p.Dest)).flatten ∧
    (compactPeers peers).length = 32 * peers.length := by
  have hc : compactPeers peers = (peers.map (fun p => p.Dest)).flatten := by
    unfold compactPeers
    rw [compactPeers_fold peers []]
    rfl
  exact ⟨hc, by rw [hc]; exact flatten_dest_length peers h⟩

/-- Witness for C2 (amended) on a single peer with the zero hash. -/
theorem claim_C2_amended_witness :
    compactPeers [⟨strToChars "p1", 0, 0, 0, 0, 0, 0, List.replicate 32 0, 6881⟩] =
      List.replicate 32 0 ∧
    (compactPeers
      [⟨strToChars "p1", 0, 0, 0, 0, 0, 0, List.replicate 32 0, 6881⟩]).length = 32 := by
  have h := claim_C2_amended
    [⟨strToChars "p1", 0, 0, 0, 0, 0, 0, List.replicate 32 0, 6881⟩] (by decide)
  exact ⟨by rw [h.1]; decide, by rw [h.2]; decide⟩

/-- C2 counterexample: a peer with the zero destination hash and port 6881
serializes to just the 32 hash bytes — not the 34 bytes
`hash ++ [0x1A, 0xE1]` that "address bytes immediately followed by the
2-byte port" requires. -/
theorem claim_C2_counterexample :
    compactPeers [⟨strToChars "p1", 0, 0, 0, 0, 0, 0, List.replicate 32 0, 6881⟩] =
      List.replicate 32 0 ∧
    List.replicate 32 (0 : Nat) ≠ List.replicate 32 (0 : Nat) ++ [26, 225] := by
  exact ⟨by decide, by decide⟩

/-! ### Bit-arithmetic helpers for the base32 round trip -/

/-- Masking with 31 is reduction mod 32. -/
theorem land31_eq (x : Nat) : x &&& 31 = x % 32 := by
  have h := Nat.and_pow_two_sub_one_eq_mod x 5
  norm_num at h
  exact h

/-- Masking with 255 is reduction mod 256. -/
theorem land255_eq (x : Nat) : x &&& 255 = x % 256 := by
  have h := Nat.and_pow_two_sub_one_eq_mod x 8
  norm_num at h
  exact h

/-- Bitwise or of values in disjoint bit ranges is addition. -/
theorem lor_add_of_disjoint (i a b : Nat) (ha : a % 2 ^ i = 0) (hb : b < 2 ^ i) :
    a ||| b = a + b := by
  obtain ⟨k, hk⟩ := Nat.dvd_of_mod_eq_zero ha
  subst hk
  exact (Nat.mul_add_lt_is_or hb k).symm

/-- Variant of `lor_add_of_disjoint` with the power given as a numeral. -/
theorem lor_add_c (c a b : Nat) (hc : ∃ i, c = 2 ^ i) (ha : a % c = 0)
    (hb : b < c) : a ||| b = a + b := by
  obtain ⟨i, rfl⟩ := hc
  exact lor_add_of_disjoint i a b ha hb

/-- Encode index 1 (`b[1]`) in closed arithmetic form. -/
theorem enc_or1 (x y : Nat) (hy : y < 256) :
    ((y >>> 6) &&& 31) ||| ((x <<< 2) &&& 31) = x % 8 * 4 + y / 64 := by
  have h1 : (y >>> 6) &&& 31 = y / 64 := by
    rw [Nat.shiftRight_eq_div_pow, land31_eq, show (2 : Nat) ^ 6 = 64 from rfl]
    omega
  have h2 : (x <<< 2) &&& 31 = x % 8 * 4 := by
    rw [Nat.shiftLeft_eq, land31_eq, show (2 : Nat) ^ 2 = 4 from rfl]
    omega
  rw [h1, h2, Nat.lor_comm,
    lor_add_c 4 (x % 8 * 4) (y / 64) ⟨2, rfl⟩ (by omega) (by omega)]

/-- Encode index 3 (`b[3]`) in closed arithmetic form. -/
theorem enc_or2 (x y : Nat) (hy : y < 256) :
    ((y >>> 4) &&& 31) ||| ((x <<< 4) &&& 31) = x % 2 * 16 + y / 16 := by
  have h1 : (y >>> 4) &&& 31 = y / 16 := by
    rw [Nat.shiftRight_eq_div_pow, land31_eq, show (2 : Nat) ^ 4 = 16 from rfl]
    omega
  have h2 : (x <<< 4) &&& 31 = x % 2 * 16 := by
    rw [Nat.shiftLeft_eq, land31_eq, show (2 : Nat) ^ 4 = 16 from rfl]
    omega
  rw [h1, h2, Nat.lor_comm,
    lor_add_c 16 (x % 2 * 16) (y / 16) ⟨4, rfl⟩ (by omega) (by omega)]

/-- Encode index 4 (`b[4]`) in closed arithmetic form. -/
theorem enc_or3 (x y : Nat) (hy : y < 256) :
    (y >>> 7) ||| ((x <<< 1) &&& 31) = x % 16 * 2 + y / 128 := by
  have h1 : y >>> 7 = y / 128 := by
    rw [Nat.shiftRight_eq_div_pow, show (2 : Nat) ^ 7 = 128 from rfl]
  have h2 : (x <<< 1) &&& 31 = x % 16 * 2 := by
    rw [Nat.shiftLeft_eq, land31_eq, show (2 : Nat) ^ 1 = 2 from rfl]
    omega
  rw [h1, h2, Nat.lor_comm,
    lor_add_c 2 (x % 16 * 2) (y / 128) ⟨1, rfl⟩ (by omega) (by omega)]

/-- Encode index 6 (`b[6]`) in closed arithmetic form. -/
theorem enc_or4 (x y : Nat) (hy : y < 256) :
    (y >>> 5) ||| ((x <<< 3) &&& 31) = x % 4 * 8 + y / 32 := by
  have h1 : y >>> 5 = y / 32 := by
    rw [Nat.shiftRight_eq_div_pow, show (2 : Nat) ^ 5 = 32 from rfl]
  have h2 : (x <<< 3) &&& 31 = x % 4 * 8 := by
    rw [Nat.shiftLeft_eq, land31_eq, show (2 : Nat) ^ 3 = 8 from rfl]
    omega
  rw [h1, h2, Nat.lor_comm,
    lor_add_c 8 (x % 4 * 8) (y / 32) ⟨3, rfl⟩ (by omega) (by omega)]

/-- Decoded byte 0 recovers the first source byte. -/
theorem dec_b0 (x y : Nat) (hx : x < 256) (hy : y < 256) :
    (((x >>> 3) <<< 3) &&& 255) ||| ((x % 8 * 4 + y / 64) >>> 2) = x := by
  have h1 : ((x >>> 3) <<< 3) &&& 255 = x / 8 * 8 := by
    rw [Nat.shiftRight_eq_div_pow, Nat.shiftLeft_eq, land255_eq,
      show (2 : Nat) ^ 3 = 8 from rfl]
    omega
  have h2 : (x % 8 * 4 + y / 64) >>> 2 = x % 8 := by
    rw [Nat.shiftRight_eq_div_pow, show (2 : Nat) ^ 2 = 4 from rfl]
    omega
  rw [h1, h2, lor_add_c 8 (x / 8 * 8) (x % 8) ⟨3, rfl⟩ (by omega) (by omega)]
  omega

/-- Decoded byte 1 recovers the second source byte (full block). -/
theorem dec_b1 (x y z : Nat) (hx : x < 256) (hy : y < 256) (hz : z < 256) :
    (((x % 8 * 4 + y / 64) <<< 6) &&& 255) |||
      ((((y >>> 1) &&& 31) <<< 1) &&& 255) ||| ((y % 2 * 16 + z / 16) >>> 4) = y := by
  have h1 : ((x % 8 * 4 + y / 64) <<< 6) &&& 255 = y / 64 * 64 := by
    rw [Nat.shiftLeft_eq, land255_eq, show (2 : Nat) ^ 6 = 64 from rfl]
    omega
  have h2 : (((y >>> 1) &&& 31) <<< 1) &&& 255 = y / 2 % 32 * 2 := by
    rw [Nat.shiftRight_eq_div_pow, Nat.shiftLeft_eq, land31_eq, land255_eq,
      show (2 : Nat) ^ 1 = 2 from rfl]
    omega
  have h3 : (y % 2 * 16 + z / 16) >>> 4 = y % 2 := by
    rw [Nat.shiftRight_eq_div_pow, show (2 : Nat) ^ 4 = 16 from rfl]
    omega
  rw [h1, h2, h3,
    lor_add_c 64 (y / 64 * 64) (y / 2 % 32 * 2) ⟨6, rfl⟩ (by omega) (by omega),
    lor_add_c 2 (y / 64 * 64 + y / 2 % 32 * 2) (y % 2) ⟨1, rfl⟩ (by omega) (by omega)]
  omega

/-- Decoded byte 1 for the final 2-byte (4-character) block. -/
theorem dec_b1t (x y : Nat) (hx : x < 256) (hy : y < 256) :
    (((x % 8 * 4 + y / 64) <<< 6) &&& 255) |||
      ((((y >>> 1) &&& 31) <<< 1) &&& 255) ||| (((y <<< 4) &&& 31) >>> 4) = y := by
  have h1 : ((x % 8 * 4 + y / 64) <<< 6) &&& 255 = y / 64 * 64 := by
    rw [Nat.shiftLeft_eq, land255_eq, show (2 : Nat) ^ 6 = 64 from rfl]
    omega
  have h2 : (((y >>> 1) &&& 31) <<< 1) &&& 255 = y / 2 % 32 * 2 := by
    rw [Nat.shiftRight_eq_div_pow, Nat.shiftLeft_eq, land31_eq, land255_eq,
      show (2 : Nat) ^ 1 = 2 from rfl]
    omega
  have h3 : ((y <<< 4) &&& 31) >>> 4 = y % 2 := by
    rw [Nat.shiftLeft_eq, land31_eq, Nat.shiftRight_eq_div_pow,
      show (2 : Nat) ^ 4 = 16 from rfl]
    omega
  rw [h1, h2, h3,
    lor_add_c 64 (y / 64 * 64) (y / 2 % 32 * 2) ⟨6, rfl⟩ (by omega) (by omega),
    lor_add_c 2 (y / 64 * 64 + y / 2 % 32 * 2) (y % 2) ⟨1, rfl⟩ (by omega) (by omega)]
  omega

/-- Decoded byte 2 recovers the third source byte. -/
theorem dec_b2 (y z w : Nat) (hy : y < 256) (hz : z < 256) (hw : w < 256) :
    (((y % 2 * 16 + z / 16) <<< 4) &&& 255) ||| ((z % 16 * 2 + w / 128) >>> 1) = z := by
  have h1 : ((y % 2 * 16 + z / 16) <<< 4) &&& 255 = z / 16 * 16 := by
    rw [Nat.shiftLeft_eq, land255_eq, show (2 : Nat) ^ 4 = 16 from rfl]
    omega
  have h2 : (z % 16 * 2 + w / 128) >>> 1 = z % 16 := by
    rw [Nat.shiftRight_eq_div_pow, show (2 : Nat) ^ 1 = 2 from rfl]
    omega
  rw [h1, h2, lor_add_c 16 (z / 16 * 16) (z % 16) ⟨4, rfl⟩ (by omega) (by omega)]
  omega

/-- Decoded byte 3 recovers the fourth source byte. -/
theorem dec_b3 (z w v : Nat) (hz : z < 256) (hw : w < 256) (hv : v < 256) :
    (((z % 16 * 2 + w / 128) <<< 7) &&& 255) |||
      ((((w >>> 2) &&& 31) <<< 2) &&& 255) ||| ((w % 4 * 8 + v / 32) >>> 3) = w := by
  have h1 : ((z % 16 * 2 + w / 128) <<< 7) &&& 255 = w / 128 * 128 := by
    rw [Nat.shiftLeft_eq, land255_eq, show (2 : Nat) ^ 7 = 128 from rfl]
    omega
  have h2 : (((w >>> 2) &&& 31) <<< 2) &&& 255 = w / 4 % 32 * 4 := by
    rw [Nat.shiftRight_eq_div_pow, Nat.shiftLeft_eq, land31_eq, land255_eq,
      show (2 : Nat) ^ 2 = 4 from rfl]
    omega
  have h3 : (w % 4 * 8 + v / 32) >>> 3 = w % 4 := by
    rw [Nat.shiftRight_eq_div_pow, show (2 : Nat) ^ 3 = 8 from rfl]
    omega
  rw [h1, h2, h3,
    lor_add_c 128 (w / 128 * 128) (w / 4 % 32 * 4) ⟨7, rfl⟩ (by omega) (by omega),
    lor_add_c 4 (w / 128 * 128 + w / 4 % 32 * 4) (w % 4) ⟨2, rfl⟩ (by omega) (by omega)]
  omega

/-- Decoded byte 4 recovers the fifth source byte. -/
theorem dec_b4 (w v : Nat) (hw : w < 256) (hv : v < 256) :
    (((w % 4 * 8 + v / 32) <<< 5) &&& 255) ||| (v &&& 31) = v := by
  have h1 : ((w % 4 * 8 + v / 32) <<< 5) &&& 255 = v / 32 * 32 := by
    rw [Nat.shiftLeft_eq, land255_eq, show (2 : Nat) ^ 5 = 32 from rfl]
    omega
  have h2 : v &&& 31 = v % 32 := land31_eq v
  rw [h1, h2, lor_add_c 32 (v / 32 * 32) (v % 32) ⟨5, rfl⟩ (by omega) (by omega)]
  omega

/-- Round trip of one full 5-byte group. -/
theorem roundtrip_block5 (b0 b1 b2 b3 b4 : Nat) (h0 : b0 < 256) (h1 : b1 < 256)
    (h2 : b2 < 256) (h3 : b3 < 256) (h4 : b4 < 256) :
    decGroups (encGroups [b0, b1, b2, b3, b4]) = [b0, b1, b2, b3, b4] := by
  simp only [encGroups, List.cons_append, List.nil_append]
  rw [enc_or1 b0 b1 h1, enc_or2 b1 b2 h2, enc_or3 b2 b3 h3, enc_or4 b3 b4 h4]
  simp only [decGroups, List.cons_append, List.nil_append]
  rw [dec_b0 b0 b1 h0 h1, dec_b1 b0 b1 b2 h0 h1 h2, dec_b2 b1 b2 b3 h1 h2 h3,
    dec_b3 b2 b3 b4 h2 h3 h4, dec_b4 b3 b4 h3 h4]

/-- Round trip of the final 2-byte (4-character) group. -/
theorem roundtrip_block2 (b0 b1 : Nat) (h0 : b0 < 256) (h1 : b1 < 256) :
    decGroups (encGroups [b0, b1]) = [b0, b1] := by
  simp only [encGroups]
  rw [enc_or1 b0 b1 h1]
  simp only [decGroups]
  rw [dec_b0 b0 b1 h0 h1, dec_b1t b0 b1 h0 h1]

/-- Full base32 round trip for byte lists whose length is `0` or `2`
modulo 5 (the two shapes this repository encodes: 30-byte passkeys and
32-byte destination hashes). -/
theorem decGroups_encGroups (src : List Nat) (hb : ∀ b ∈ src, b < 256)
    (hlen : src.length % 5 = 0 ∨ src.length % 5 = 2) :
    decGroups (encGroups src) = src := by
  induction src using encGroups.induct with
  | case1 b0 b1 b2 b3 b4 rest IH =>
    have h0 : b0 < 256 := hb b0 (by simp)
    have h1 : b1 < 256 := hb b1 (by simp)
    have h2 : b2 < 256 := hb b2 (by simp)
    have h3 : b3 < 256 := hb b3 (by simp)
    have h4 : b4 < 256 := hb b4 (by simp)
    simp only [encGroups, List.cons_append, List.nil_append]
    rw [enc_or1 b0 b1 h1, enc_or2 b1 b2 h2, enc_or3 b2 b3 h3, enc_or4 b3 b4 h4]
    simp only [decGroups]
    rw [dec_b0 b0 b1 h0 h1, dec_b1 b0 b1 b2 h0 h1 h2, dec_b2 b1 b2 b3 h1 h2 h3,
      dec_b3 b2 b3 b4 h2 h3 h4, dec_b4 b3 b4 h3 h4]
    rw [IH (fun b h => hb b (by simp [h])) (by simp at hlen ⊢; omega)]
    rfl
  | case2 b0 b1 b2 b3 =>
    simp at hlen
  | case3 b0 b1 b2 =>
    simp at hlen
  | case4 b0 b1 =>
    have h0 : b0 < 256 := hb b0 (by simp)
    have h1 : b1 < 256 := hb b1 (by simp)
    exact roundtrip_block2 b0 b1 h0 h1
  | case5 b0 =>
    simp at hlen
  | case6 =>
    rfl

/-- Length of the encoded index list when the input length is a multiple
of five: eight characters per five bytes. -/
theorem encGroups_length_five (src : List Nat) (h : src.length % 5 = 0) :
    (encGroups src).length = src.length / 5 * 8 := by
  induction src using encGroups.induct with
  | case1 b0 b1 b2 b3 b4 rest IH =>
    simp only [encGroups, List.cons_append, List.nil_append, List.length_cons]
    rw [IH (by simp at h ⊢; omega)]
    omega
  | case2 b0 b1 b2 b3 => simp at h
  | case3 b0 b1 b2 => simp at h
  | case4 b0 b1 => simp at h
  | case5 b0 => simp at h
  | case6 => rfl

/-- Length of the encoded index list when the input length is `2` modulo
five: eight characters per five bytes plus four for the final pair. -/
theorem encGroups_length_two (src : List Nat) (h : src.length % 5 = 2) :
    (encGroups src).length = src.length / 5 * 8 + 4 := by
  induction src using encGroups.induct with
  | case1 b0 b1 b2 b3 b4 rest IH =>
    simp only [encGroups, List.cons_append, List.nil_append, List.length_cons]
    rw [IH (by simp at h ⊢; omega)]
    omega
  | case2 b0 b1 b2 b3 => simp at h
  | case3 b0 b1 b2 => simp at h
  | case4 b0 b1 => simp [encGroups]
  | case5 b0 => simp at h
  | case6 => simp at h

/-- Each character the encoder emits is drawn from the 32-character
alphabet (the lookup is `alphabet[i & 31]`). -/
theorem base32Chars_mem (alpha : GoStr) (h32 : alpha.length = 32)
    (src : List Nat) : ∀ c ∈ base32Chars alpha src, c ∈ alpha := by
  intro c hc
  rcases List.mem_map.mp hc with ⟨i, _, rfl⟩
  have hlt : i &&& 31 < 32 := lt_of_le_of_lt Nat.and_le_right (by norm_num)
  rw [List.getD_eq_getElem?_getD, List.getElem?_eq_getElem (by omega)]
  exact List.getElem_mem _

/-- Any 30-byte buffer encodes to a 48-character string over the lowercase
base32 alphabet. -/
theorem passkey_of_len30 (src : List Nat) (h : src.length = 30) :
    (goToLower (base32Chars stdAlphabet src)).length = 48 ∧
    ∀ c ∈ goToLower (base32Chars stdAlphabet src), c ∈ i2pAlphabet := by
  constructor
  · unfold goToLower base32Chars
    rw [List.length_map, List.length_map, encGroups_length_five src (by omega)]
    omega
  · intro c hc
    rcases List.mem_map.mp hc with ⟨c', hc', rfl⟩
    have hmem : c' ∈ stdAlphabet := base32Chars_mem stdAlphabet (by decide) src c' hc'
    have hall : ∀ x ∈ stdAlphabet, toLowerChar x ∈ i2pAlphabet := by decide
    exact hall c' hmem

/-- The `genPassKey` buffer always has exactly 30 bytes. -/
theorem genPassKey_buffer_length (written : List Nat) (h : written.length ≤ 30) :
    (written ++ List.replicate (30 - written.length) 0).length = 30 := by
  simp
  omega

/-- C5: every passkey `genPassKey` produces from its 30-byte random buffer is
exactly 48 characters, all from the lowercase base32 alphabet `a-z2-7`. -/
theorem claim_C5_passkey (bytes : List Nat) (h : bytes.length = 30) :
    (genPassKey bytes).length = 48 ∧
    ∀ c ∈ genPassKey bytes, c ∈ i2pAlphabet := by
  unfold genPassKey
  exact passkey_of_len30 _ (genPassKey_buffer_length bytes (by omega))

/-- Witness for C5 on the all-255 30-byte buffer. -/
theorem claim_C5_passkey_witness :
    (genPassKey (List.replicate 30 255)).length = 48 ∧
    ∀ c ∈ genPassKey (List.replicate 30 255), c ∈ i2pAlphabet :=
  claim_C5_passkey (List.replicate 30 255) (by decide)

/-- C3 (amended): a failure of the random source is ignored — whatever
partial fill `io.ReadFull` achieved, `genPassKey` still returns a
well-formed 48-character lowercase-base32 passkey (of the partially filled,
zero-padded buffer) and surfaces no error. -/
theorem claim_C3_amended (written : List Nat) (h : written.length ≤ 30) :
    (genPassKey written).length = 48 ∧
    ∀ c ∈ genPassKey written, c ∈ i2pAlphabet := by
  unfold genPassKey
  exact passkey_of_len30 _ (genPassKey_buffer_length written h)

/-- Witness for C3 (amended): a partial 1-byte fill still yields a passkey. -/
theorem claim_C3_amended_witness :
    (genPassKey [7]).length = 48 ∧ ∀ c ∈ genPassKey [7], c ∈ i2pAlphabet :=
  claim_C3_amended [7] (by decide)

/-- C3 counterexample: when the random source fails having written nothing,
`genPassKey` does NOT fail with an error — it ignores `io.ReadFull`'s error
(`_, _ =`) and returns the passkey of the all-zero buffer, 48 letters `a`. -/
theorem claim_C3_counterexample :
    genPassKey [] = List.replicate 48 'a' := by
  decide

/-- Or of two 5-bit values stays below 32. -/
theorem or_lt_32 (x y : Nat) (hx : x < 32) (hy : y < 32) : x ||| y < 32 := by
  have h := Nat.or_lt_two_pow (n := 5) (x := x) (y := y) hx hy
  norm_num at h
  exact h

/-- A masked value is below 32. -/
theorem mask31_lt (x : Nat) : x &&& 31 < 32 :=
  lt_of_le_of_lt Nat.and_le_right (by norm_num)

/-- Every encoded index of a byte list is a 5-bit value. -/
theorem encGroups_lt (src : List Nat) (hb : ∀ b ∈ src, b < 256) :
    ∀ i ∈ encGroups src, i < 32 := by
  induction src using encGroups.induct with
  | case1 b0 b1 b2 b3 b4 rest IH =>
    have h0 : b0 < 256 := hb b0 (by simp)
    have h3 : b3 < 256 := hb b3 (by simp)
    have h4 : b4 < 256 := hb b4 (by simp)
    intro i hi
    simp only [encGroups, List.cons_append, List.nil_append, List.mem_cons] at hi
    rcases hi with rfl | rfl | rfl | rfl | rfl | rfl | rfl | rfl | hrest
    · rw [Nat.shiftRight_eq_div_pow]; omega
    · exact or_lt_32 _ _ (mask31_lt _) (mask31_lt _)
    · exact mask31_lt _
    · exact or_lt_32 _ _ (mask31_lt _) (mask31_lt _)
    · refine or_lt_32 _ _ ?_ (mask31_lt _)
      rw [Nat.shiftRight_eq_div_pow]; omega
    · exact mask31_lt _
    · refine or_lt_32 _ _ ?_ (mask31_lt _)
      rw [Nat.shiftRight_eq_div_pow]; omega
    · exact mask31_lt _
    · exact IH (fun b h => hb b (by simp [h])) i hrest
  | case2 b0 b1 b2 b3 =>
    have h0 : b0 < 256 := hb b0 (by simp)
    have h3 : b3 < 256 := hb b3 (by simp)
    intro i hi
    simp only [encGroups, List.mem_cons] at hi
    rcases hi with rfl | rfl | rfl | rfl | rfl | rfl | rfl | h
    · rw [Nat.shiftRight_eq_div_pow]; omega
    · exact or_lt_32 _ _ (mask31_lt _) (mask31_lt _)
    · exact mask31_lt _
    · exact or_lt_32 _ _ (mask31_lt _) (mask31_lt _)
    · refine or_lt_32 _ _ ?_ (mask31_lt _)
      rw [Nat.shiftRight_eq_div_pow]; omega
    · exact mask31_lt _
    · exact mask31_lt _
    · cases h
  | case3 b0 b1 b2 =>
    have h0 : b0 < 256 := hb b0 (by simp)
    intro i hi
    simp only [encGroups, List.mem_cons] at hi
    rcases hi with rfl | rfl | rfl | rfl | rfl | h
    · rw [Nat.shiftRight_eq_div_pow]; omega
    · exact or_lt_32 _ _ (mask31_lt _) (mask31_lt _)
    · exact mask31_lt _
    · exact or_lt_32 _ _ (mask31_lt _) (mask31_lt _)
    · exact mask31_lt _
    · cases h
  | case4 b0 b1 =>
    have h0 : b0 < 256 := hb b0 (by simp)
    intro i hi
    simp only [encGroups, List.mem_cons] at hi
    rcases hi with rfl | rfl | rfl | rfl | h
    · rw [Nat.shiftRight_eq_div_pow]; omega
    · exact or_lt_32 _ _ (mask31_lt _) (mask31_lt _)
    · exact mask31_lt _
    · exact mask31_lt _
    · cases h
  | case5 b0 =>
    have h0 : b0 < 256 := hb b0 (by simp)
    intro i hi
    simp only [encGroups, List.mem_cons] at hi
    rcases hi with rfl | rfl | h
    · rw [Nat.shiftRight_eq_div_pow]; omega
    · exact mask31_lt _
    · cases h
  | case6 =>
    intro i hi
    cases hi

/-- Looking a 5-bit value's alphabet character back up recovers the value. -/
theorem charIndex_getD :
    ∀ i, i < 32 → charIndex i2pAlphabet (i2pAlphabet.getD i '?') = some i := by
  decide

/-- Decoding the characters the encoder produced yields the index list
back, provided all indices are 5-bit values. -/
theorem charIndices_map (l : List Nat) (hl : ∀ i ∈ l, i < 32) :
    charIndices i2pAlphabet
      (l.map (fun i => i2pAlphabet.getD (i &&& 31) '?')) = some l := by
  induction l with
  | nil => rfl
  | cons i rest IH =>
    have hi : i < 32 := hl i (by simp)
    have hmask : i &&& 31 = i := by rw [land31_eq]; omega
    simp only [List.map_cons, charIndices, hmask]
    rw [charIndex_getD i hi, IH (fun j hj => hl j (by simp [hj]))]

/-- The base32 name of a 32-byte hash has 52 characters. -/
theorem destHash_base32_length (h : I2PDestHash) (hlen : h.length = 32) :
    (base32Chars i2pAlphabet h).length = 52 := by
  unfold base32Chars
  rw [List.length_map, encGroups_length_two h (by omega)]
  omega

/-- Round trip: parsing the string form of a well-formed 32-byte destination
hash recovers the hash. -/
theorem DestHashFromString_destHashString (h : I2PDestHash)
    (hlen : h.length = 32) (hb : ∀ b ∈ h, b < 256) :
    DestHashFromString (destHashString h) = h := by
  have h52 : (base32Chars i2pAlphabet h).length = 52 :=
    destHash_base32_length h hlen
  have hsuffix : (strToChars ".b32.i2p").isSuffixOf (destHashString h) = true :=
    List.isSuffixOf_iff_suffix.mpr (List.suffix_append _ _)
  have hlength : (destHashString h).length = 60 := by
    unfold destHashString
    rw [List.length_append, h52]
    rfl
  unfold DestHashFromString
  rw [if_pos ⟨hlength, hsuffix⟩]
  unfold destHashString
  rw [List.take_left' h52]
  unfold base32Chars
  rw [charIndices_map (encGroups h) (encGroups_lt h hb)]
  exact decGroups_encGroups h hb (Or.inr (by omega))

/-- A string without `'/'` contains no `"//"`. -/
theorem hasDoubleSlash_eq_false (l : GoStr) (h : ∀ c ∈ l, c ≠ '/') :
    hasDoubleSlash l = false := by
  induction l with
  | nil => rfl
  | cons c rest IH =>
    cases rest with
    | nil => rfl
    | cons c2 r =>
      unfold hasDoubleSlash
      rw [if_neg (by intro hc; exact h c (by simp) hc.1)]
      exact IH (fun x hx => h x (by simp [List.mem_cons] at hx ⊢; tauto))

/-- No character of a destination hash's string form is `'/'`. -/
theorem destHashString_no_slash (h : I2PDestHash) :
    ∀ c ∈ destHashString h, c ≠ '/' := by
  intro c hc
  unfold destHashString at hc
  rcases List.mem_append.mp hc with h1 | h2
  · have hmem : c ∈ i2pAlphabet := base32Chars_mem i2pAlphabet (by decide) h c h1
    have : ∀ x ∈ i2pAlphabet, x ≠ '/' := by decide
    exact this c hmem
  · have : ∀ x ∈ strToChars ".b32.i2p", x ≠ '/' := by decide
    exact this c h2

/-- One-step unfolding of `splitDoubleSlash` on a two-cons list. -/
theorem splitDoubleSlash_cons2 (c1 c2 : Char) (rest : GoStr) :
    splitDoubleSlash (c1 :: c2 :: rest) =
      if c1 = '/' ∧ c2 = '/' then [] :: splitDoubleSlash rest
      else
        match splitDoubleSlash (c2 :: rest) with
        | h :: t => (c1 :: h) :: t
        | [] => [[c1]] := rfl

/-- Splitting a `"//"`-free string yields the one-element list. -/
theorem splitDoubleSlash_whole (l : GoStr) (h : hasDoubleSlash l = false) :
    splitDoubleSlash l = [l] := by
  induction l with
  | nil => rfl
  | cons c rest IH =>
    cases rest with
    | nil => rfl
    | cons c2 r =>
      unfold hasDoubleSlash at h
      rw [splitDoubleSlash_cons2]
      by_cases hcc : c = '/' ∧ c2 = '/'
      · rw [if_pos hcc] at h
        cases h
      · rw [if_neg hcc] at h
        rw [if_neg hcc, IH h]

/-- Splitting `a ++ "//" ++ b` cuts exactly at the inserted separator when
`a` contains no `"//"` and does not end in `'/'`. -/
theorem splitDoubleSlash_append (a b : GoStr) (hnd : hasDoubleSlash a = false)
    (hlast : a.getLast? ≠ some '/') :
    splitDoubleSlash (a ++ '/' :: '/' :: b) = a :: splitDoubleSlash b := by
  induction a with
  | nil =>
    show splitDoubleSlash ('/' :: '/' :: b) = [] :: splitDoubleSlash b
    rw [splitDoubleSlash_cons2, if_pos ⟨rfl, rfl⟩]
  | cons c a' IH =>
    cases a' with
    | nil =>
      have hc : c ≠ '/' := by
        intro hc
        exact hlast (by simp [hc])
      show splitDoubleSlash (c :: '/' :: '/' :: b) = [c] :: splitDoubleSlash b
      rw [splitDoubleSlash_cons2, if_neg (by intro hcc; exact hc hcc.1),
        splitDoubleSlash_cons2, if_pos ⟨rfl, rfl⟩]
    | cons c2 a'' =>
      unfold hasDoubleSlash at hnd
      have hcc : ¬(c = '/' ∧ c2 = '/') := by
        intro hcc
        rw [if_pos hcc] at hnd
        cases hnd
      rw [if_neg hcc] at hnd
      have hlast' : (c2 :: a'').getLast? ≠ some '/' := by
        rwa [List.getLast?_cons_cons] at hlast
      have hrec := IH hnd hlast'
      show splitDoubleSlash (c :: c2 :: (a'' ++ '/' :: '/' :: b)) =
        (c :: c2 :: a'') :: splitDoubleSlash b
      rw [splitDoubleSlash_cons2, if_neg hcc,
        show c2 :: (a'' ++ '/' :: '/' :: b) = (c2 :: a'') ++ '/' :: '/' :: b from rfl,
        hrec]

/-- C10 (amended): for a peer id without `"//"` that also does not end in
`'/'`, and a well-formed 32-byte destination hash, the peer key decomposes
exactly: `PeerID()` returns the peer id and `Dest()` returns the hash.
(A peer id merely free of `"//"` is not enough: one ending in `'/'` merges
with the separator — see the counterexample.) -/
theorem claim_C10_peer_key (p : GoStr) (d : I2PDestHash)
    (hnd : hasDoubleSlash p = false) (hlast : p.getLast? ≠ some '/')
    (hdlen : d.length = 32) (hdb : ∀ b ∈ d, b < 256) :
    PeerKeyPeerID (NewPeerKey p d) = p ∧ PeerKeyDest (NewPeerKey p d) = d := by
  have hshape : NewPeerKey p d = p ++ '/' :: '/' :: destHashString d := by
    unfold NewPeerKey
    simp [strToChars]
  have hsplit : splitDoubleSlash (NewPeerKey p d) =
      p :: splitDoubleSlash (destHashString d) := by
    rw [hshape]
    exact splitDoubleSlash_append p _ hnd hlast
  have hwhole : splitDoubleSlash (destHashString d) = [destHashString d] :=
    splitDoubleSlash_whole _
      (hasDoubleSlash_eq_false _ (destHashString_no_slash d))
  constructor
  · unfold PeerKeyPeerID
    rw [hsplit]
    rfl
  · unfold PeerKeyDest
    rw [hsplit, hwhole]
    exact DestHashFromString_destHashString d hdlen hdb

/-- Witness for C10 (amended) at peer id `ab` and the zero hash. -/
theorem claim_C10_peer_key_witness :
    PeerKeyPeerID (NewPeerKey (strToChars "ab") (List.replicate 32 0)) =
      strToChars "ab" ∧
    PeerKeyDest (NewPeerKey (strToChars "ab") (List.replicate 32 0)) =
      List.replicate 32 0 :=
  claim_C10_peer_key (strToChars "ab") (List.replicate 32 0)
    (by decide) (by decide) (by decide) (by decide)

/-- C10 counterexample: the peer id `p/` contains no `"//"`, yet its key
does not decompose — `PeerID()` returns `p`, not `p/`, because the trailing
slash merges with the separator. -/
theorem claim_C10_counterexample :
    hasDoubleSlash (strToChars "p/") = false ∧
    PeerKeyPeerID (NewPeerKey (strToChars "p/") (List.replicate 32 0)) =
      strToChars "p" ∧
    strToChars "p" ≠ strToChars "p/" := by
  refine ⟨by decide, by decide, by decide⟩
